import Mathlib

/-!
Verification development for a Tetris game engine (manual and AI modes).
The definitions below are a shallow embedding of the C++ sources
(`tetris_merged.cpp` being the authoritative file): machine integers are
modelled as `Int`/`Nat` (no overflow is reachable on a 10x20 board),
`double` arithmetic over the small fixed heuristic coefficients is
modelled exactly over `Rat`, the board is a list of rows of cells, and
the one unbounded loop (`dropPosition`) is given explicit fuel whose
sufficiency is proved.
-/

/-- Board width in cells (`BOARD_W = 10`). -/
def BOARD_W : Nat := 10

/-- Board height in cells (`BOARD_H = 20`). -/
def BOARD_H : Nat := 20

/-- A 4x4 piece mask (`Matrix4 = array<array<int,4>,4>`); entries are 0/1. -/
abbrev Matrix4 := Matrix (Fin 4) (Fin 4) Nat

/-- 90-degree clockwise rotation: `r[i][j] = m[3-j][i]`. -/
def rotate90 (m : Matrix4) : Matrix4 :=
  Matrix.of fun i j => m (3 - j) i

/-- The seven classic tetromino masks in flat 16-cell form, order I,O,T,J,L,S,Z
(`TETROMINO_CLASSIC`). -/
def TETROMINO_CLASSIC : List (List Nat) :=
  [[0,0,0,0, 1,1,1,1, 0,0,0,0, 0,0,0,0],
   [0,1,1,0, 0,1,1,0, 0,0,0,0, 0,0,0,0],
   [0,1,0,0, 1,1,1,0, 0,0,0,0, 0,0,0,0],
   [1,0,0,0, 1,1,1,0, 0,0,0,0, 0,0,0,0],
   [0,0,1,0, 1,1,1,0, 0,0,0,0, 0,0,0,0],
   [0,1,1,0, 1,1,0,0, 0,0,0,0, 0,0,0,0],
   [1,1,0,0, 0,1,1,0, 0,0,0,0, 0,0,0,0]]

/-- A tetromino: its list of precomputed rotation states and its color id. -/
structure Tetromino where
  states : List Matrix4
  colorId : Nat

/-- Base mask of the I piece. -/
def I0 : Matrix4 := !![0,0,0,0; 1,1,1,1; 0,0,0,0; 0,0,0,0]

/-- Base mask of the J piece. -/
def J0 : Matrix4 := !![1,0,0,0; 1,1,1,0; 0,0,0,0; 0,0,0,0]

/-- Base mask of the L piece. -/
def L0 : Matrix4 := !![0,0,1,0; 1,1,1,0; 0,0,0,0; 0,0,0,0]

/-- Base mask of the O piece. -/
def O0 : Matrix4 := !![0,1,1,0; 0,1,1,0; 0,0,0,0; 0,0,0,0]

/-- Base mask of the S piece. -/
def S0 : Matrix4 := !![0,1,1,0; 1,1,0,0; 0,0,0,0; 0,0,0,0]

/-- Base mask of the T piece. -/
def T0m : Matrix4 := !![0,1,0,0; 1,1,1,0; 0,0,0,0; 0,0,0,0]

/-- Base mask of the Z piece. -/
def Z0 : Matrix4 := !![1,1,0,0; 0,1,1,0; 0,0,0,0; 0,0,0,0]

/-- All four successive rotation states of a base mask, as produced by the
`push_back(rotate90(states.back()))` loops in `makeTetrominoes`. -/
def rot4 (m : Matrix4) : List Matrix4 :=
  [m, rotate90 m, rotate90 (rotate90 m), rotate90 (rotate90 (rotate90 m))]

/-- The tetromino catalog built by `makeTetrominoes` (order I,J,L,O,S,T,Z,
color ids as in the source). -/
def makeTetrominoes : List Tetromino :=
  [⟨[I0, rotate90 I0], 1⟩,
   ⟨rot4 J0, 4⟩,
   ⟨rot4 L0, 5⟩,
   ⟨[O0], 2⟩,
   ⟨[S0, rotate90 S0], 6⟩,
   ⟨rot4 T0m, 3⟩,
   ⟨[Z0, rotate90 Z0], 7⟩]

/-- The board: 20 rows (top to bottom) of 10 cells, 0 = empty
(`array<array<int, BOARD_W>, BOARD_H> cells`). -/
abbrev Board := List (List Nat)

/-- The all-empty board built by the `Board` constructor. -/
def emptyBoard : Board := List.replicate BOARD_H (List.replicate BOARD_W 0)

/-- Read `cells[r][c]` (all source reads are bounds-guarded, so the default
0 for out-of-range indices is never observable). -/
def cellAt (b : Board) (r c : Nat) : Nat := (b.getD r []).getD c 0

/-- `cells[r][c] != 0`. -/
def occAt (b : Board) (r c : Nat) : Bool := cellAt b r c != 0

/-- `Board::collides`: some occupied mask cell maps to a column outside
`[0, BOARD_W)`, to a row at or beyond `BOARD_H`, or to a row `>= 0` whose
board cell is occupied. -/
def collides (b : Board) (s : Matrix4) (topR leftC : Int) : Bool :=
  (List.finRange 4).any fun i => (List.finRange 4).any fun j =>
    s i j != 0 &&
      (leftC + (j : Nat) < 0 || (BOARD_W : Int) ≤ leftC + (j : Nat) ||
       (BOARD_H : Int) ≤ topR + (i : Nat) ||
       (0 ≤ topR + (i : Nat) && occAt b (topR + (i : Nat)).toNat (leftC + (j : Nat)).toNat))

/-- Does the occupied footprint of shape `s` placed at `(topR, leftC)` cover
board cell `(r, c)`? -/
def coveredBy (s : Matrix4) (topR leftC : Int) (r c : Nat) : Bool :=
  (List.finRange 4).any fun i => (List.finRange 4).any fun j =>
    s i j != 0 && topR + (i : Nat) == (r : Int) && leftC + (j : Nat) == (c : Int)

/-- `Board::placePiece`: write `colorId` into every occupied, in-bounds cell
(cells mapped outside the grid are silently dropped). -/
def placePiece (b : Board) (s : Matrix4) (topR leftC : Int) (colorId : Nat) : Board :=
  b.mapIdx fun r row => row.mapIdx fun c v =>
    if coveredBy s topR leftC r c then colorId else v

/-- A row is full iff every one of its `BOARD_W` cells is non-empty. -/
def isFullRow (row : List Nat) : Bool :=
  (List.range BOARD_W).all fun c => row.getD c 0 != 0

/-- An all-empty row (`cells[0].fill(0)`). -/
def emptyRow : List Nat := List.replicate BOARD_W 0

/-- Number of occupied cells among the `BOARD_W` cells of a row. -/
def rowOcc (row : List Nat) : Nat :=
  ((List.range BOARD_W).filter fun c => row.getD c 0 != 0).length

/-- Total number of occupied cells in a list of rows. -/
def totalOcc (l : List (List Nat)) : Nat := (l.map rowOcc).sum

/-- The `clearLines` scan, on the rows listed bottom-to-top (head = the row
currently examined, tail = the rows above it), with explicit structural
fuel (one unit pays for each loop iteration; `totalOcc l + l.length` units
always suffice, which is proved below).  A full head row is removed, an
empty row enters at the top, and the same position is re-examined; a
non-full head row is kept and the scan moves up.  Returns the processed
rows (bottom-to-top) and the number of rows cleared. -/
def clearAuxFuel : Nat → List (List Nat) → List (List Nat) × Nat
  | 0, l => (l, 0)
  | _ + 1, [] => ([], 0)
  | fuel + 1, row :: above =>
    if isFullRow row then
      let p := clearAuxFuel fuel (above ++ [emptyRow])
      (p.1, p.2 + 1)
    else
      let p := clearAuxFuel fuel above
      (row :: p.1, p.2)

/-- `Board::clearLines`: scan rows bottom-to-top, remove each full row,
shift everything above it down one (an empty row enters at row 0) and
re-examine the same row index.  Returns the new board and the cleared
count. -/
def clearLines (b : Board) : Board × Nat :=
  let p := clearAuxFuel (totalOcc b.reverse + b.reverse.length) b.reverse
  (p.1.reverse, p.2)

/-- The `dropPosition` descent loop with explicit fuel: keep incrementing the
candidate top row while the row below does not collide; `none` means the fuel
ran out (the source loop would still be running). -/
def dropAux (b : Board) (s : Matrix4) (leftC : Int) : Nat → Int → Option Int
  | 0, _ => none
  | fuel + 1, topR =>
    if collides b s (topR + 1) leftC then some topR
    else dropAux b s leftC fuel (topR + 1)

/-- `Board::dropPosition`: starting at top row -4, descend to the last
non-colliding row; `none` models the `INT_MIN` sentinel (no valid resting
position).  Fuel 25 is sufficient for every mask with at least one occupied
cell (proved below); the source loop does not terminate on the all-zero
mask, which also yields `none` here. -/
def dropPosition (b : Board) (s : Matrix4) (leftC : Int) : Option Int :=
  match dropAux b s leftC 25 (-4) with
  | none => none
  | some t => if collides b s t leftC then none else some t

/-- Row index of the topmost occupied cell of column `c`, if any. -/
def topmostRow (b : Board) (c : Nat) : Option Nat :=
  (List.range BOARD_H).find? fun r => occAt b r c

/-- `Board::columnHeight`: scan rows top-down; the first occupied row `r`
gives `BOARD_H - r`; an empty column gives 0. -/
def columnHeight (b : Board) (c : Nat) : Nat :=
  match topmostRow b c with
  | some r => BOARD_H - r
  | none => 0

/-- `Board::aggregateHeight`: sum of the column heights. -/
def aggregateHeight (b : Board) : Nat :=
  ((List.range BOARD_W).map fun c => columnHeight b c).sum

/-- `Board::bumpiness`: sum of absolute differences of adjacent column
heights. -/
def bumpiness (b : Board) : Nat :=
  ((List.range (BOARD_W - 1)).map fun c =>
    ((columnHeight b c : Int) - (columnHeight b (c + 1) : Int)).natAbs).sum

/-- The per-column hole scan of `Board::holes`: fold down the column keeping
(block seen above, holes so far). -/
def holesCol (b : Board) (c : Nat) : Nat :=
  ((List.range BOARD_H).foldl
    (fun (st : Bool × Nat) r =>
      if occAt b r c then (true, st.2)
      else if st.1 then (st.1, st.2 + 1) else st)
    (false, 0)).2

/-- `Board::holes`: empty cells with at least one occupied cell above them in
the same column, summed over columns. -/
def holes (b : Board) : Nat :=
  ((List.range BOARD_W).map fun c => holesCol b c).sum

/-- Heuristic weight for cleared lines (`W_LINES = 0.760666`, exact; written
as an explicit fraction so that it evaluates by kernel reduction). -/
def W_LINES : Rat := mkRat 760666 1000000

/-- Heuristic weight for holes (`W_HOLE = -0.35663`, exact). -/
def W_HOLE : Rat := mkRat (-35663) 100000

/-- Heuristic weight for aggregate height (`W_HEIGHT = -0.510066`, exact). -/
def W_HEIGHT : Rat := mkRat (-510066) 1000000

/-- Heuristic weight for bumpiness (`W_BUMPY = -0.184483`, exact). -/
def W_BUMPY : Rat := mkRat (-184483) 1000000

/-- The AI decision record (`MoveDecision`). -/
structure MoveDecision where
  rotationIndex : Nat
  leftC : Int
  score : Rat
  lines : Nat
deriving DecidableEq

/-- Evaluate one `(rotation index, left column)` candidate: `none` when
`dropPosition` reports no valid resting row (the `continue` in
`findBestMove`), otherwise the heuristic score and cleared-line count of
the cloned, placed, line-cleared board. -/
def evalCandidate (b : Board) (states : List Matrix4) (colorId : Nat)
    (c : Nat × Int) : Option (Rat × Nat) :=
  let shape := states.getD c.1 (Matrix.of fun _ _ => 0)
  match dropPosition b shape c.2 with
  | none => none
  | some top =>
    let b2 := placePiece b shape top c.2 colorId
    let b3 := (clearLines b2).1
    let ln := (clearLines b2).2
    some (W_LINES * ln + W_HOLE * holes b3 + W_HEIGHT * aggregateHeight b3
            + W_BUMPY * bumpiness b3, ln)

/-- One update step of the running best: replace it only under strict
`score > best.score`. -/
def stepBest (eval : Nat × Int → Option (Rat × Nat)) (best : MoveDecision)
    (c : Nat × Int) : MoveDecision :=
  match eval c with
  | none => best
  | some (s, ln) => if best.score < s then ⟨c.1, c.2, s, ln⟩ else best

/-- The horizontal offsets searched: `-4` to `BOARD_W` inclusive. -/
def offsets : List Int := (List.range (BOARD_W + 5)).map fun n => (n : Int) - 4

/-- All `(rotation index, offset)` candidates in rotation-major,
offset-ascending order. -/
def candidatesFor (numStates : Nat) : List (Nat × Int) :=
  (List.range numStates).flatMap fun r => offsets.map fun l => (r, l)

/-- `findBestMove`: scan every rotation state and every offset in order,
keeping the strictly best score, starting from the sentinel
`{0, 0, -1e9, 0}`. -/
def findBestMove (b : Board) (pieceType : Nat) : MoveDecision :=
  let piece := makeTetrominoes.getD pieceType ⟨[], 0⟩
  (candidatesFor piece.states.length).foldl
    (stepBest (evalCandidate b piece.states piece.colorId))
    ⟨0, 0, -(10 ^ 9 : Rat), 0⟩

/-- `Bag::next`, with the shuffle modelled by an externally supplied
permutation `shuffled` (used only when the queue is empty): refill if
empty, then pop from the back. -/
def bagNext (shuffled : List Nat) (bag : List Nat) : Nat × List Nat :=
  let b := if bag.isEmpty then shuffled else bag
  (b.getLastD 0, b.dropLast)

/-- Draw `k` pieces in sequence; `shuffles n` supplies the permutation used
by the `n`-th refill (if one happens). -/
def drawN (shuffles : Nat → List Nat) : Nat → List Nat → List Nat × List Nat
  | 0, bag => ([], bag)
  | k + 1, bag =>
    let p := bagNext (shuffles 0) bag
    let q := drawN (fun n => shuffles (n + 1)) k p.2
    (p.1 :: q.1, q.2)

/-- The flat mask index used by `Game::pieceCell` for each rotation
(case 0: `i*4+j`; case 1: `(3-j)*4+i`; case 2: `(3-i)*4+(3-j)`;
case 3: `j*4+(3-i)`). -/
def flatIdx (rot : Nat) (i j : Fin 4) : Nat :=
  match rot % 4 with
  | 0 => i.val * 4 + j.val
  | 1 => (3 - j.val) * 4 + i.val
  | 2 => (3 - i.val) * 4 + (3 - j.val)
  | _ => j.val * 4 + (3 - i.val)

/-- `Game::pieceCell` generalized to an arbitrary flat 16-cell mask. -/
def pieceCellOf (mask : List Nat) (rot : Nat) (i j : Fin 4) : Nat :=
  mask.getD (flatIdx rot i j) 0

/-- `Game::pieceCell`: cell `(i, j)` of piece `ty` at rotation `rot`, read
from `TETROMINO_CLASSIC` through the modulo-4 index transform. -/
def pieceCell (ty rot : Nat) (i j : Fin 4) : Nat :=
  pieceCellOf (TETROMINO_CLASSIC.getD ty []) rot i j

/-- View an arbitrary flat 16-cell mask as a 4x4 matrix. -/
def maskToMatrix (mask : List Nat) : Matrix4 :=
  Matrix.of fun i j => mask.getD (i.val * 4 + j.val) 0

/-- `Game::collidesPiece`: like `Board::collides` but reading cells through
`pieceCell`. -/
def collidesPiece (b : Board) (px py : Int) (ty rot : Nat) : Bool :=
  (List.finRange 4).any fun i => (List.finRange 4).any fun j =>
    pieceCell ty rot i j != 0 &&
      (px + (j : Nat) < 0 || (BOARD_W : Int) ≤ px + (j : Nat) ||
       (BOARD_H : Int) ≤ py + (i : Nat) ||
       (0 ≤ py + (i : Nat) && occAt b (py + (i : Nat)).toNat (px + (j : Nat)).toNat))

/-- The manual-mode rotation attempt of `Game::updateManual`: accept the new
rotation in place, else one column left, else one column right of the
original position, else reject (position and rotation unchanged).  Returns
the resulting `(x, rotation)`. -/
def tryRotate (b : Board) (ty : Nat) (x y : Int) (rot newRot : Nat) : Int × Nat :=
  if !collidesPiece b x y ty newRot then (x, newRot)
  else if !collidesPiece b (x - 1) y ty newRot then (x - 1, newRot)
  else if !collidesPiece b (x + 1) y ty newRot then (x + 1, newRot)
  else (x, rot)

/-- The clockwise rotation attempt (`KEY_UP`/`KEY_X`): new rotation
`(rot + 1) % 4`. -/
def rotateCW (b : Board) (ty : Nat) (x y : Int) (rot : Nat) : Int × Nat :=
  tryRotate b ty x y rot ((rot + 1) % 4)

/-- The counter-clockwise rotation attempt (`KEY_Z`): new rotation
`(rot + 3) % 4`. -/
def rotateCCW (b : Board) (ty : Nat) (x y : Int) (rot : Nat) : Int × Nat :=
  tryRotate b ty x y rot ((rot + 3) % 4)

/-- The game-session state manipulated by `Game::updateAI` (float timers
modelled over `Rat`; the RNG lives outside the model: the next piece drawn
from the bag is a parameter of the update functions). -/
structure GameS where
  board : Board
  curType : Nat
  curX : Int
  curY : Int
  curRot : Nat
  score : Nat
  linesCleared : Nat
  level : Nat
  gameOver : Bool
  paused : Bool
  aiTimer : Rat
  aiCooldown : Rat
deriving DecidableEq

/-- `Game::spawnPiece` with the bag draw `next` supplied: reset the piece to
rotation 0 at `(BOARD_W/2 - 2, 0)` and declare game over if it already
collides. -/
def spawnPiece (next : Nat) (s : GameS) : GameS :=
  let s1 := { s with curType := next, curRot := 0,
                     curX := (BOARD_W : Int) / 2 - 2, curY := 0 }
  if collidesPiece s1.board s1.curX s1.curY s1.curType s1.curRot then
    { s1 with gameOver := true }
  else s1

/-- `Game::updateAI`: return unchanged if game over; advance the cooldown
timer; once it reaches `aiCooldown`, reset it, run `findBestMove`, treat a
score below `-1e8` (or a failed re-drop) as game over, otherwise place the
piece, clear lines, update score (`100 * 2^(cleared-1)`), lines and level,
and spawn the next piece. -/
def updateAI (dt : Rat) (next : Nat) (s : GameS) : GameS :=
  if s.gameOver then s
  else
    let t := s.aiTimer + dt
    if s.aiCooldown ≤ t then
      let s0 := { s with aiTimer := 0 }
      let mv := findBestMove s.board s.curType
      if mv.score < -(10 ^ 8 : Rat) then { s0 with gameOver := true }
      else
        let piece := makeTetrominoes.getD s.curType ⟨[], 0⟩
        let shape := piece.states.getD mv.rotationIndex (Matrix.of fun _ _ => 0)
        match dropPosition s.board shape mv.leftC with
        | none => { s0 with gameOver := true }
        | some top =>
          let b2 := placePiece s.board shape top mv.leftC piece.colorId
          let b3 := (clearLines b2).1
          let cleared := (clearLines b2).2
          let s1 :=
            if 0 < cleared then
              { s0 with board := b3,
                        linesCleared := s.linesCleared + cleared,
                        score := s.score + 100 * 2 ^ (cleared - 1),
                        level := 1 + (s.linesCleared + cleared) / 10 }
            else { s0 with board := b3 }
          spawnPiece next s1
    else { s with aiTimer := t }

/-- The tetromino looked up for a piece type (`tetrominoes[pieceType]`). -/
def pieceOf (t : Nat) : Tetromino := makeTetrominoes.getD t ⟨[], 0⟩

/-- The candidate evaluator `findBestMove` uses for piece type `t`. -/
def evalFor (b : Board) (t : Nat) : Nat × Int → Option (Rat × Nat) :=
  evalCandidate b (pieceOf t).states (pieceOf t).colorId

/-- The candidate list `findBestMove` scans for piece type `t`. -/
def candsFor (t : Nat) : List (Nat × Int) :=
  candidatesFor (pieceOf t).states.length

/-- The all-zero 4x4 mask. -/
def zeroMask : Matrix4 := Matrix.of fun _ _ => 0

/-- A fully occupied row. -/
def fullRow : List Nat := List.replicate BOARD_W 1

/-- A fully occupied board. -/
def fullBoard : Board := List.replicate BOARD_H fullRow

/-- Example board for line clearing: rows 0-16 empty, row 17 partial
(one block in column 0), rows 18 and 19 full. -/
def boardC2 : Board :=
  List.replicate 17 emptyRow ++ [1 :: List.replicate (BOARD_W - 1) 0, fullRow, fullRow]

/-- Example board with a single occupied cell at row 19 (the bottom row),
column 0. -/
def boardC5 : Board :=
  List.replicate (BOARD_H - 1) emptyRow ++ [1 :: List.replicate (BOARD_W - 1) 0]

/-- Example AI-mode session state: not game over, pause flag set, cooldown
timer at 0, cooldown period 1.08 seconds. -/
def exStateC8 : GameS :=
  ⟨emptyBoard, 0, 3, 0, 0, 0, 0, 1, false, true, 0, 27 / 25⟩

/-- Overwrite the pause flag of a session state, leaving every other field
unchanged. -/
def setPaused (s : GameS) (b : Bool) : GameS := { s with paused := b }

/-! ### Shared helper lemmas and claim theorems -/

/-- Propositional characterization of `collides` (the early-return loop is a
bounded existential). -/
theorem collides_eq_true_iff (b : Board) (s : Matrix4) (topR leftC : Int) :
    collides b s topR leftC = true ↔
      ∃ i j : Fin 4, s i j ≠ 0 ∧
        (leftC + ((j : Nat) : Int) < 0 ∨ (BOARD_W : Int) ≤ leftC + ((j : Nat) : Int) ∨
         (BOARD_H : Int) ≤ topR + ((i : Nat) : Int) ∨
         (0 ≤ topR + ((i : Nat) : Int) ∧
           occAt b (topR + ((i : Nat) : Int)).toNat (leftC + ((j : Nat) : Int)).toNat = true)) := by
  simp only [collides, List.any_eq_true, List.mem_finRange, Bool.and_eq_true,
    Bool.or_eq_true, bne_iff_ne, ne_eq, decide_eq_true_eq, true_and]
  constructor <;> rintro ⟨i, j, h1, h2⟩ <;> exact ⟨i, j, h1, by tauto⟩

/-- C4: `collides` returns true iff some occupied mask cell maps to a column
outside `[0, 10)`, or to a row at or beyond the bottom boundary (row ≥ 20),
or to a row ≥ 0 whose board cell is already occupied; and a shape whose
occupied cells all lie above row 0 and within the horizontal bounds never
collides (negative rows never collide on their own, but still count toward
the horizontal bounds check). -/
theorem collides_characterization (b : Board) (s : Matrix4) (topR leftC : Int) :
    (collides b s topR leftC = true ↔
      ∃ i j : Fin 4, s i j ≠ 0 ∧
        (leftC + ((j : Nat) : Int) < 0 ∨ (BOARD_W : Int) ≤ leftC + ((j : Nat) : Int) ∨
         (BOARD_H : Int) ≤ topR + ((i : Nat) : Int) ∨
         (0 ≤ topR + ((i : Nat) : Int) ∧
           occAt b (topR + ((i : Nat) : Int)).toNat (leftC + ((j : Nat) : Int)).toNat = true))) ∧
    ((∀ i j : Fin 4, s i j ≠ 0 →
        topR + ((i : Nat) : Int) < 0 ∧ 0 ≤ leftC + ((j : Nat) : Int) ∧
          leftC + ((j : Nat) : Int) < (BOARD_W : Int)) →
      collides b s topR leftC = false) := by
  refine ⟨collides_eq_true_iff b s topR leftC, ?_⟩
  intro h
  rw [Bool.eq_false_iff]
  intro hc
  rw [collides_eq_true_iff] at hc
  obtain ⟨i, j, hocc, hd⟩ := hc
  obtain ⟨hr, hc1, hc2⟩ := h i j hocc
  simp only [BOARD_W, BOARD_H] at hd hr hc1 hc2
  rcases hd with h1 | h2 | h3 | ⟨h4, _⟩ <;> omega

/-- Witness for C4: on the empty board the horizontal I mask at top row -4,
left column 3 is entirely above the grid and in horizontal bounds, hence
does not collide. -/
theorem collides_characterization_witness :
    collides emptyBoard I0 (-4) 3 = false :=
  (collides_characterization emptyBoard I0 (-4) 3).2 (by decide)

/-- C9: the fixed modulo-4 index transform of `pieceCell` (case 1:
`original[3-j][i]`; case 2: `original[3-i][3-j]`; case 3:
`original[j][3-i]`) agrees, on every 4x4 base mask and every rotation index
`k < 4`, with `k` successive applications of `rotate90`
(`rotated[i][j] = original[3-j][i]`): the direct-transform and
precomputed-rotation catalog designs are observably equivalent for a full
4-state catalog. -/
theorem pieceCell_modulo4_eq_iterated_rotate90 (mask : List Nat) (k : Nat)
    (hk : k < 4) (i j : Fin 4) :
    pieceCellOf mask k i j = (rotate90^[k] (maskToMatrix mask)) i j := by
  interval_cases k <;> fin_cases i <;> fin_cases j <;> rfl

/-- Witness for C9: the transform at rotation 1 on the classic I mask agrees
with one application of `rotate90` at cell (0, 0). -/
theorem pieceCell_modulo4_eq_iterated_rotate90_witness :
    pieceCellOf [0,0,0,0, 1,1,1,1, 0,0,0,0, 0,0,0,0] 1 0 0 =
      (rotate90^[1] (maskToMatrix [0,0,0,0, 1,1,1,1, 0,0,0,0, 0,0,0,0])) 0 0 :=
  pieceCell_modulo4_eq_iterated_rotate90 [0,0,0,0, 1,1,1,1, 0,0,0,0, 0,0,0,0] 1
    (by decide) 0 0

/-- `find?` skips a prefix on which the predicate never holds. -/
theorem find_append_of_none {α : Type} {p : α → Bool} {l1 l2 : List α}
    (h : l1.find? p = none) : (l1 ++ l2).find? p = l2.find? p := by
  induction l1 with
  | nil => simp
  | cons a l ih =>
    rcases ha : p a with _ | _
    · simp only [List.cons_append] at h ⊢
      rw [List.find?_cons_of_neg _ (by simp [ha])] at h ⊢
      exact ih h
    · rw [List.find?_cons_of_pos _ ha] at h
      exact absurd h (by simp)

/-- `find?` over `range n` returns the least index satisfying the
predicate. -/
theorem find_range_eq_some {p : Nat → Bool} {n r : Nat} (hr : r < n)
    (hp : p r = true) (hmin : ∀ q, q < r → p q = false) :
    (List.range n).find? p = some r := by
  have hsplit : List.range n = List.range r ++ List.range' r (n - r) := by
    rw [List.range_eq_range', List.range_eq_range']
    rw [show n = (n - r) + r by omega]
    rw [← List.range'_append 0 r (n - r) 1]
    norm_num
  rw [hsplit, find_append_of_none (List.find?_eq_none.mpr ?_)]
  · rw [show n - r = (n - r - 1) + 1 by omega, List.range'_succ,
      List.find?_cons_of_pos _ hp]
  · intro x hx
    simp only [List.mem_range] at hx
    simp [hmin x hx]

/-- C5 counterexample: on the board whose only occupied cell is at row 19
(the bottom row) of column 0, the topmost occupied cell of column 0 is at
row index 19 — so its distance from the top of the grid is 19 rows — yet
`columnHeight` returns 1 (the height measured from the bottom). -/
theorem columnHeight_not_distance_from_top :
    topmostRow boardC5 0 = some 19 ∧ columnHeight boardC5 0 = 1 ∧ (1 : Nat) ≠ 19 :=
  ⟨by decide, by decide, by decide⟩

/-- C5 (amended): `columnHeight(c)` equals `BOARD_H` minus the row index of
the topmost occupied cell of column `c` — the distance from the bottom of
the grid to the top of the column's stack — and equals 0 if the column is
empty. -/
theorem columnHeight_eq_bottom_distance (b : Board) (c : Nat) :
    ((∀ r, r < BOARD_H → cellAt b r c = 0) → columnHeight b c = 0) ∧
    (∀ r, r < BOARD_H → cellAt b r c ≠ 0 → (∀ q, q < r → cellAt b q c = 0) →
      columnHeight b c = BOARD_H - r) := by
  constructor
  · intro h
    have hn : topmostRow b c = none := by
      rw [topmostRow, List.find?_eq_none]
      intro x hx
      simp only [List.mem_range] at hx
      simp [occAt, h x hx]
    simp [columnHeight, hn]
  · intro r hr hocc hmin
    have hs : topmostRow b c = some r := by
      rw [topmostRow]
      exact find_range_eq_some hr (by simp [occAt, hocc])
        (fun q hq => by simp [occAt, hmin q hq])
    simp [columnHeight, hs]

/-- Witness for the amended C5: on the single-bottom-cell board, column 0
has its topmost occupied cell at row 19, so its height is 20 - 19 = 1. -/
theorem columnHeight_eq_bottom_distance_witness :
    columnHeight boardC5 0 = BOARD_H - 19 :=
  (columnHeight_eq_bottom_distance boardC5 0).2 19 (by decide) (by decide)
    (fun q hq => by interval_cases q <;> decide)

/-- A mask with at least one occupied cell collides at every top row at or
beyond the bottom boundary. -/
theorem collides_of_bottom (b : Board) (s : Matrix4) (leftC : Int)
    (hne : ∃ i j : Fin 4, s i j ≠ 0) (t : Int) (ht : (BOARD_H : Int) ≤ t) :
    collides b s t leftC = true := by
  obtain ⟨i, j, hij⟩ := hne
  rw [collides_eq_true_iff]
  refine ⟨i, j, hij, Or.inr (Or.inr (Or.inl ?_))⟩
  have : (0 : Int) ≤ ((i : Nat) : Int) := Int.natCast_nonneg _
  omega

/-- A collision at top row -4 can only come from the horizontal bounds
check, so it forces a collision at every top row. -/
theorem collides_at_neg4_everywhere (b : Board) (s : Matrix4) (leftC : Int)
    (h : collides b s (-4) leftC = true) (t : Int) :
    collides b s t leftC = true := by
  rw [collides_eq_true_iff] at h
  obtain ⟨i, j, hij, hd⟩ := h
  have hi : ((i : Nat) : Int) < 4 := by exact_mod_cast i.isLt
  have hi0 : (0 : Int) ≤ ((i : Nat) : Int) := Int.natCast_nonneg _
  rw [collides_eq_true_iff]
  refine ⟨i, j, hij, ?_⟩
  simp only [BOARD_H] at hd
  rcases hd with h1 | h2 | h3 | ⟨h4, _⟩
  · exact Or.inl h1
  · exact Or.inr (Or.inl h2)
  · omega
  · omega

/-- What a successful fueled descent means: the returned row collides one
row further down, is at or below the start, and every row in between
(start excluded) is collision-free. -/
theorem dropAux_spec (b : Board) (s : Matrix4) (leftC : Int) :
    ∀ (fuel : Nat) (t u : Int), dropAux b s leftC fuel t = some u →
      collides b s (u + 1) leftC = true ∧ t ≤ u ∧
        ∀ v : Int, t < v → v ≤ u → collides b s v leftC = false := by
  intro fuel
  induction fuel with
  | zero => intro t u h; exact absurd h (by simp [dropAux])
  | succ n ih =>
    intro t u h
    rw [dropAux] at h
    rcases hc : collides b s (t + 1) leftC with _ | _
    · rw [hc] at h
      simp only [Bool.false_eq_true, if_false] at h
      obtain ⟨h1, h2, h3⟩ := ih (t + 1) u h
      refine ⟨h1, by omega, ?_⟩
      intro v hv1 hv2
      rcases (by omega : v = t + 1 ∨ t + 1 < v) with rfl | hv
      · exact hc
      · exact h3 v hv hv2
    · rw [hc] at h
      simp only [if_true, Option.some.injEq] at h
      subst h
      exact ⟨hc, le_refl _, fun v hv1 hv2 => absurd (lt_of_lt_of_le hv1 hv2) (lt_irrefl _)⟩

/-- Fuel sufficiency: for a mask with an occupied cell, fuel
`BOARD_H + 1 - t` suffices for the descent starting at `t`. -/
theorem dropAux_reaches (b : Board) (s : Matrix4) (leftC : Int)
    (hne : ∃ i j : Fin 4, s i j ≠ 0) :
    ∀ (fuel : Nat) (t : Int), t ≤ (BOARD_H : Int) →
      (BOARD_H : Int) + 1 - t ≤ (fuel : Int) →
      ∃ u, dropAux b s leftC fuel t = some u := by
  intro fuel
  induction fuel with
  | zero =>
    intro t ht hf
    simp only [BOARD_H] at ht hf
    omega
  | succ n ih =>
    intro t ht hf
    rcases hc : collides b s (t + 1) leftC with _ | _
    · have ht1 : t + 1 ≤ (BOARD_H : Int) := by
        by_contra hgt
        rw [collides_of_bottom b s leftC hne (t + 1) (by omega)] at hc
        exact absurd hc (by simp)
      obtain ⟨u, hu⟩ := ih (t + 1) ht1 (by push_cast at hf ⊢; omega)
      exact ⟨u, by rw [dropAux, hc]; simpa using hu⟩
    · exact ⟨t, by rw [dropAux, hc]; simp⟩

/-- C10: for every board, left column, and mask with at least one occupied
cell, the `dropPosition` descent terminates within the given fuel (a
non-empty mask always collides once it passes the bottom boundary), so the
function totally returns a row or the sentinel; on the all-zero mask no
candidate row ever collides and the scan never stops (it exhausts any
amount of fuel). -/
theorem dropPosition_terminates (b : Board) (leftC : Int) :
    (∀ s : Matrix4, (∃ i j : Fin 4, s i j ≠ 0) →
      ∃ u, dropAux b s leftC 25 (-4) = some u) ∧
    (∀ fuel : Nat, ∀ t0 : Int, dropAux b zeroMask leftC fuel t0 = none) := by
  constructor
  · intro s hne
    exact dropAux_reaches b s leftC hne 25 (-4) (by norm_num [BOARD_H])
      (by norm_num [BOARD_H])
  · intro fuel
    induction fuel with
    | zero => intro t0; rfl
    | succ n ih =>
      intro t0
      rw [dropAux]
      have hz : collides b zeroMask (t0 + 1) leftC = false := by
        simp [collides, zeroMask]
      rw [hz]
      simpa using ih (t0 + 1)

/-- Witness for C10: on the empty board with the I mask at left column 0
the fueled descent finds a resting row; the all-zero mask exhausts fuel 3
starting at row 0. -/
theorem dropPosition_terminates_witness :
    (∃ u, dropAux emptyBoard I0 0 25 (-4) = some u) ∧
      dropAux emptyBoard zeroMask 0 3 0 = none :=
  ⟨(dropPosition_terminates emptyBoard 0).1 I0 (by decide),
   (dropPosition_terminates emptyBoard 0).2 3 0⟩

/-- C3: `dropPosition` is a pure function of the board, shape and column
(it is a Lean function, so determinism is definitional); whenever it
returns a row `t`, the shape does not collide at `t` but does collide at
`t + 1` (the lowest legal resting row); and it returns the sentinel exactly
when the shape already collides at the starting topmost candidate row
-4. -/
theorem dropPosition_resting_row (b : Board) (s : Matrix4) (leftC : Int)
    (hne : ∃ i j : Fin 4, s i j ≠ 0) :
    (∀ t : Int, dropPosition b s leftC = some t →
      collides b s t leftC = false ∧ collides b s (t + 1) leftC = true) ∧
    (dropPosition b s leftC = none ↔ collides b s (-4) leftC = true) := by
  obtain ⟨u, hu⟩ := dropAux_reaches b s leftC hne 25 (-4) (by norm_num [BOARD_H])
    (by norm_num [BOARD_H])
  obtain ⟨hcol, hge, hfree⟩ := dropAux_spec b s leftC 25 (-4) u hu
  constructor
  · intro t ht
    simp only [dropPosition, hu] at ht
    rcases hcu : collides b s u leftC with _ | _
    · rw [hcu] at ht
      simp only [Bool.false_eq_true, if_false, Option.some.injEq] at ht
      subst ht
      exact ⟨hcu, hcol⟩
    · rw [hcu] at ht
      simp at ht
  · simp only [dropPosition, hu]
    constructor
    · intro hnone
      rcases hcu : collides b s u leftC with _ | _
      · rw [hcu] at hnone; simp at hnone
      · have : u = -4 := by
          by_contra hne4
          rw [hfree u (by omega) (le_refl u)] at hcu
          exact absurd hcu (by simp)
        rw [← this]; exact hcu
    · intro h4
      have : collides b s u leftC = true := collides_at_neg4_everywhere b s leftC h4 u
      rw [this]
      simp

/-- Witness for C3: on the empty board, the horizontal I mask at left
column 0 rests at top row 18: it does not collide there, collides at 19,
and the sentinel case does not apply since row -4 is collision-free. -/
theorem dropPosition_resting_row_witness :
    collides emptyBoard I0 18 0 = false ∧ collides emptyBoard I0 19 0 = true :=
  (dropPosition_resting_row emptyBoard I0 0 (by decide)).1 18 (by decide)

/-- Drawing exactly as many pieces as the bag holds triggers no refill and
yields the bag's contents back-to-front. -/
theorem drawN_no_refill :
    ∀ (k : Nat) (shuffles : Nat → List Nat) (bag : List Nat),
      bag.length = k → drawN shuffles k bag = (bag.reverse, []) := by
  intro k
  induction k with
  | zero =>
    intro shuffles bag hlen
    rw [List.length_eq_zero] at hlen
    subst hlen
    rfl
  | succ n ih =>
    intro shuffles bag hlen
    rcases List.eq_nil_or_concat bag with rfl | ⟨L, a, rfl⟩
    · exact absurd hlen (by simp)
    · simp only [List.concat_eq_append] at hlen ⊢
      have hL : L.length = n := by
        simp only [List.length_append, List.length_cons, List.length_nil] at hlen
        omega
      rw [drawN]
      have hb : bagNext (shuffles 0) (L ++ [a]) = (a, L) := by
        simp [bagNext]
      rw [hb, ih _ L hL]
      simp

/-- C6: within any run of 7 consecutive draws bounded by one refill — i.e.
starting right after the queue was refilled with a permutation of the 7
type ids — each piece type 0..6 is drawn exactly once, regardless of the
permutation the shuffle chose and of the permutations any later refills
would use. -/
theorem bag_seven_draws_each_type_once (shuffles : Nat → List Nat)
    (p : List Nat) (hp : p.Perm (List.range 7)) :
    ∀ t, t < 7 → ((drawN shuffles 7 p).1).count t = 1 := by
  intro t ht
  have hlen : p.length = 7 := by
    have := hp.length_eq
    simpa using this
  rw [drawN_no_refill 7 shuffles p hlen]
  simp only [List.count_reverse]
  rw [hp.count_eq]
  exact List.count_eq_one_of_mem (List.nodup_range 7) (List.mem_range.mpr ht)

/-- Witness for C6: drawing 7 from the freshly refilled bag
`[0,1,2,3,4,5,6]` yields piece type 3 exactly once. -/
theorem bag_seven_draws_each_type_once_witness :
    ((drawN (fun _ => []) 7 [0, 1, 2, 3, 4, 5, 6]).1).count 3 = 1 :=
  bag_seven_draws_each_type_once (fun _ => []) [0, 1, 2, 3, 4, 5, 6]
    (by decide) 3 (by decide)

/-- C7: a manual-mode rotation attempt (clockwise `(rot+1) % 4` via
`rotateCW` or counter-clockwise `(rot+3) % 4` via `rotateCCW`) accepts the
new rotation at the current position if it does not collide; otherwise it
tries one column to the left, then one column to the right of the original
position; if all three placements collide the rotation is rejected and the
piece's position and rotation are unchanged. -/
theorem manual_rotation_wall_kick (b : Board) (ty : Nat) (x y : Int)
    (rot newRot : Nat) :
    (collidesPiece b x y ty newRot = false →
      tryRotate b ty x y rot newRot = (x, newRot)) ∧
    (collidesPiece b x y ty newRot = true →
      collidesPiece b (x - 1) y ty newRot = false →
      tryRotate b ty x y rot newRot = (x - 1, newRot)) ∧
    (collidesPiece b x y ty newRot = true →
      collidesPiece b (x - 1) y ty newRot = true →
      collidesPiece b (x + 1) y ty newRot = false →
      tryRotate b ty x y rot newRot = (x + 1, newRot)) ∧
    (collidesPiece b x y ty newRot = true →
      collidesPiece b (x - 1) y ty newRot = true →
      collidesPiece b (x + 1) y ty newRot = true →
      tryRotate b ty x y rot newRot = (x, rot)) ∧
    rotateCW b ty x y rot = tryRotate b ty x y rot ((rot + 1) % 4) ∧
    rotateCCW b ty x y rot = tryRotate b ty x y rot ((rot + 3) % 4) := by
  refine ⟨?_, ?_, ?_, ?_, rfl, rfl⟩
  · intro h0
    simp [tryRotate, h0]
  · intro h0 h1
    simp [tryRotate, h0, h1]
  · intro h0 h1 h2
    simp [tryRotate, h0, h1, h2]
  · intro h0 h1 h2
    simp [tryRotate, h0, h1, h2]

/-- Witness for C7: on the fully occupied board every placement of the
rotated I piece collides, so the clockwise rotation attempt at (3, 0) is
rejected and position and rotation stay (3, 0). -/
theorem manual_rotation_wall_kick_witness :
    tryRotate fullBoard 0 3 0 0 1 = (3, 0) :=
  (manual_rotation_wall_kick fullBoard 0 3 0 0 1).2.2.2.1 (by decide)
    (by decide) (by decide)

/-- A full row has at least one occupied cell. -/
theorem rowOcc_pos_of_full (row : List Nat) (h : isFullRow row = true) :
    0 < rowOcc row := by
  have h0 : (0 : Nat) ∈ (List.range BOARD_W).filter fun c => row.getD c 0 != 0 := by
    simp only [List.mem_filter, List.mem_range]
    refine ⟨by norm_num [BOARD_W], ?_⟩
    have := List.all_eq_true.mp h 0 (by simp [BOARD_W])
    simpa using this
  have : 0 < ((List.range BOARD_W).filter fun c => row.getD c 0 != 0).length :=
    List.length_pos.mpr (List.ne_nil_of_mem h0)
  simpa [rowOcc] using this

/-- The empty row has no occupied cell. -/
theorem rowOcc_emptyRow : rowOcc emptyRow = 0 := by decide

/-- With sufficient fuel, the bottom-to-top clear scan keeps exactly the
non-full rows (in order) and appends one empty row on top per full row; it
counts the full rows. -/
theorem clearAuxFuel_eq :
    ∀ (fuel : Nat) (l : List (List Nat)), totalOcc l + l.length ≤ fuel →
      clearAuxFuel fuel l =
        (l.filter (fun row => !isFullRow row) ++
           List.replicate (l.countP (fun row => isFullRow row)) emptyRow,
         l.countP (fun row => isFullRow row)) := by
  intro fuel
  induction fuel with
  | zero =>
    intro l hl
    have : l = [] := List.length_eq_zero.mp (by omega)
    subst this
    simp [clearAuxFuel]
  | succ n ih =>
    intro l hl
    rcases l with _ | ⟨row, above⟩
    · simp [clearAuxFuel]
    · rw [clearAuxFuel]
      rcases hfull : isFullRow row with _ | _
      · simp only [hfull, Bool.false_eq_true, if_false]
        have hm : totalOcc above + above.length ≤ n := by
          simp only [totalOcc, List.map_cons, List.sum_cons, List.length_cons] at hl ⊢
          omega
        rw [ih above hm]
        simp [hfull]
      · simp only [hfull, if_true]
        have hocc := rowOcc_pos_of_full row hfull
        have hm : totalOcc (above ++ [emptyRow]) + (above ++ [emptyRow]).length ≤ n := by
          simp only [totalOcc, List.map_append, List.map_cons, List.sum_append,
            List.sum_cons, List.map_nil, List.sum_nil, List.length_append,
            List.length_cons, List.length_nil, rowOcc_emptyRow] at hl ⊢
          omega
        rw [ih _ hm]
        have hemp : isFullRow emptyRow = false := by decide
        simp [List.filter_append, List.countP_append, hfull, hemp,
          List.replicate_succ, List.append_assoc]

/-- C2: `clearLines` counts exactly the rows whose 10 cells are all
non-empty, removes them, and shifts everything above down (the cleared
board is the non-full rows preceded by one fresh empty row per cleared
row) — the same-row re-examination after each shift makes simultaneously
full rows all get cleared.  In particular, on a board with exactly two full
rows it returns 2, removes both, shifts content above down by 2, and the
top two rows become empty. -/
theorem clearLines_clears_full_rows (b : Board) :
    ((clearLines b).2 = b.countP (fun row => isFullRow row)) ∧
    ((clearLines b).1 =
      List.replicate (b.countP (fun row => isFullRow row)) emptyRow ++
        b.filter (fun row => !isFullRow row)) ∧
    (b.countP (fun row => isFullRow row) = 2 →
      (clearLines b).2 = 2 ∧
      (clearLines b).1 =
        List.replicate 2 emptyRow ++ b.filter (fun row => !isFullRow row)) := by
  have h2 : (clearLines b).2 = b.countP (fun row => isFullRow row) := by
    rw [clearLines, clearAuxFuel_eq _ _ (le_refl _)]
    simp
  have h1 : (clearLines b).1 =
      List.replicate (b.countP (fun row => isFullRow row)) emptyRow ++
        b.filter (fun row => !isFullRow row) := by
    rw [clearLines, clearAuxFuel_eq _ _ (le_refl _)]
    simp
  exact ⟨h2, h1, fun hc => ⟨by rw [h2, hc], by rw [h1, hc]⟩⟩

/-- Witness for C2: the example board with full rows 18 and 19 and a single
block in row 17 clears 2 lines and its block shifts down to row 19. -/
theorem clearLines_clears_full_rows_witness :
    (clearLines boardC2).2 = 2 ∧
      (clearLines boardC2).1 =
        List.replicate 2 emptyRow ++
          boardC2.filter (fun row => !isFullRow row) :=
  (clearLines_clears_full_rows boardC2).2.2 (by decide)

/-- Field values of `setPaused`: the board. -/
theorem setPaused_board (s : GameS) (b : Bool) : (setPaused s b).board = s.board := rfl

/-- Field values of `setPaused`: the piece type. -/
theorem setPaused_curType (s : GameS) (b : Bool) : (setPaused s b).curType = s.curType := rfl

/-- Field values of `setPaused`: the piece column. -/
theorem setPaused_curX (s : GameS) (b : Bool) : (setPaused s b).curX = s.curX := rfl

/-- Field values of `setPaused`: the piece row. -/
theorem setPaused_curY (s : GameS) (b : Bool) : (setPaused s b).curY = s.curY := rfl

/-- Field values of `setPaused`: the piece rotation. -/
theorem setPaused_curRot (s : GameS) (b : Bool) : (setPaused s b).curRot = s.curRot := rfl

/-- Field values of `setPaused`: the score. -/
theorem setPaused_score (s : GameS) (b : Bool) : (setPaused s b).score = s.score := rfl

/-- Field values of `setPaused`: the cleared-line total. -/
theorem setPaused_linesCleared (s : GameS) (b : Bool) :
    (setPaused s b).linesCleared = s.linesCleared := rfl

/-- Field values of `setPaused`: the level. -/
theorem setPaused_level (s : GameS) (b : Bool) : (setPaused s b).level = s.level := rfl

/-- Field values of `setPaused`: the game-over flag. -/
theorem setPaused_gameOver (s : GameS) (b : Bool) : (setPaused s b).gameOver = s.gameOver := rfl

/-- Field values of `setPaused`: the pause flag itself. -/
theorem setPaused_paused (s : GameS) (b : Bool) : (setPaused s b).paused = b := rfl

/-- Field values of `setPaused`: the AI cooldown timer. -/
theorem setPaused_aiTimer (s : GameS) (b : Bool) : (setPaused s b).aiTimer = s.aiTimer := rfl

/-- Field values of `setPaused`: the AI cooldown period. -/
theorem setPaused_aiCooldown (s : GameS) (b : Bool) :
    (setPaused s b).aiCooldown = s.aiCooldown := rfl

/-- `spawnPiece` neither reads nor writes the pause flag. -/
theorem spawnPiece_setPaused (next : Nat) (s : GameS) (b : Bool) :
    spawnPiece next (setPaused s b) = setPaused (spawnPiece next s) b := by
  rw [setPaused, spawnPiece, spawnPiece, setPaused]
  dsimp only
  split <;> rfl

/-- C8 (amended): `Game::updateAI` does not consult the pause flag at all —
for every state, elapsed-time delta and next bag draw, its effect is the
same whether or not the pause flag is set (only `updateManual` checks
`paused`; the shipped main loop moreover toggles pause only in manual mode,
so an AI-mode game never has the flag set). -/
theorem updateAI_ignores_pause_flag (dt : Rat) (next : Nat) (s : GameS) (b : Bool) :
    updateAI dt next (setPaused s b) = setPaused (updateAI dt next s) b := by
  rw [updateAI, updateAI]
  simp only [setPaused_board, setPaused_curType, setPaused_curX, setPaused_curY,
    setPaused_curRot, setPaused_score, setPaused_linesCleared, setPaused_level,
    setPaused_gameOver, setPaused_paused, setPaused_aiTimer, setPaused_aiCooldown]
  rcases hgo : s.gameOver with _ | _
  · simp only [hgo, Bool.false_eq_true, if_false]
    generalize makeTetrominoes.getD s.curType ⟨[], 0⟩ = pc
    generalize findBestMove s.board s.curType = mv
    by_cases hc : s.aiCooldown ≤ s.aiTimer + dt
    · simp only [hc, if_true]
      by_cases hs : mv.score < -(10 ^ 8 : Rat)
      · simp only [hs, if_true]
        rfl
      · simp only [hs, if_false]
        generalize pc.states.getD mv.rotationIndex (Matrix.of fun _ _ => 0) = sh
        rcases hdp : dropPosition s.board sh mv.leftC with _ | top
        · simp only [hdp]
          rfl
        · simp only [hdp]
          generalize clearLines (placePiece s.board sh top mv.leftC pc.colorId) = P
          by_cases hP : 0 < P.2
          · simp only [hP, if_true]
            exact spawnPiece_setPaused next
              { board := P.1, curType := s.curType, curX := s.curX, curY := s.curY,
                curRot := s.curRot, score := s.score + 100 * 2 ^ (P.2 - 1),
                linesCleared := s.linesCleared + P.2,
                level := 1 + (s.linesCleared + P.2) / 10, gameOver := false,
                paused := s.paused, aiTimer := 0, aiCooldown := s.aiCooldown } b
          · simp only [hP, if_false]
            exact spawnPiece_setPaused next
              { board := P.1, curType := s.curType, curX := s.curX, curY := s.curY,
                curRot := s.curRot, score := s.score, linesCleared := s.linesCleared,
                level := s.level, gameOver := false, paused := s.paused,
                aiTimer := 0, aiCooldown := s.aiCooldown } b
    · simp only [hc, if_false]
      rfl
  · simp only [hgo, if_true]

set_option maxRecDepth 4000 in
/-- C8 counterexample: with the pause flag set, a not-game-over AI state at
cooldown timer 0 and cooldown period 1.08 still ticks: an update with
elapsed time 1/2 advances the cooldown timer to 1/2, so the state is not
left unchanged. -/
theorem updateAI_ticks_while_paused :
    exStateC8.paused = true ∧ exStateC8.gameOver = false ∧
      exStateC8.aiTimer = 0 ∧ (updateAI (1 / 2) 0 exStateC8).aiTimer = 1 / 2 ∧
      updateAI (1 / 2) 0 exStateC8 ≠ exStateC8 := by
  have hup : updateAI (1 / 2) 0 exStateC8 = { exStateC8 with aiTimer := 1 / 2 } := by
    rw [updateAI]
    have hgo : exStateC8.gameOver = false := rfl
    have hcool : exStateC8.aiCooldown = 27 / 25 := rfl
    have htim : exStateC8.aiTimer = 0 := rfl
    simp only [hgo, Bool.false_eq_true, if_false, hcool, htim]
    have hc : ¬ (27 / 25 : Rat) ≤ 0 + 1 / 2 := by norm_num
    simp only [hc, if_false]
    norm_num
  refine ⟨rfl, rfl, rfl, by rw [hup], ?_⟩
  rw [hup]
  intro h
  have h2 := congrArg GameS.aiTimer h
  have h3 : ({ exStateC8 with aiTimer := 1 / 2 } : GameS).aiTimer = 1 / 2 := rfl
  have h4 : exStateC8.aiTimer = 0 := rfl
  rw [h3, h4] at h2
  norm_num at h2

/-- The cleared-lines weight is exactly the source literal `0.760666`. -/
theorem W_LINES_eq : W_LINES = 0.760666 := by
  rw [W_LINES]
  norm_num [Rat.mkRat_eq_divInt, Rat.divInt_eq_div]

/-- The holes weight is exactly the source literal `-0.35663`. -/
theorem W_HOLE_eq : W_HOLE = -0.35663 := by
  rw [W_HOLE]
  norm_num [Rat.mkRat_eq_divInt, Rat.divInt_eq_div]

/-- The aggregate-height weight is exactly the source literal `-0.510066`. -/
theorem W_HEIGHT_eq : W_HEIGHT = -0.510066 := by
  rw [W_HEIGHT]
  norm_num [Rat.mkRat_eq_divInt, Rat.divInt_eq_div]

/-- The bumpiness weight is exactly the source literal `-0.184483`. -/
theorem W_BUMPY_eq : W_BUMPY = -0.184483 := by
  rw [W_BUMPY]
  norm_num [Rat.mkRat_eq_divInt, Rat.divInt_eq_div]

/-- The per-column hole fold adds at most one hole per scanned row. -/
theorem holesCol_fold_le (b : Board) (c : Nat) :
    ∀ (l : List Nat) (st : Bool × Nat),
      (l.foldl (fun (st : Bool × Nat) r =>
        if occAt b r c then (true, st.2)
        else if st.1 then (st.1, st.2 + 1) else st) st).2 ≤ st.2 + l.length := by
  intro l
  induction l with
  | nil => intro st; simp
  | cons a l ih =>
    intro st
    rw [List.foldl_cons]
    refine le_trans (ih _) ?_
    simp only [List.length_cons]
    by_cases h : occAt b a c
    · simp only [h, if_true]
      omega
    · by_cases h2 : st.1 <;> simp only [h, h2, if_true, if_false,
        Bool.false_eq_true] <;> omega

/-- Each column contributes at most `BOARD_H` holes. -/
theorem holesCol_le (b : Board) (c : Nat) : holesCol b c ≤ BOARD_H := by
  have h := holesCol_fold_le b c (List.range BOARD_H) (false, 0)
  simpa [holesCol] using h

/-- The hole count is at most the number of cells. -/
theorem holes_le (b : Board) : holes b ≤ BOARD_W * BOARD_H := by
  rw [holes]
  refine le_trans (List.sum_le_card_nsmul _ BOARD_H ?_) ?_
  · intro x hx
    simp only [List.mem_map] at hx
    obtain ⟨c, _, rfl⟩ := hx
    exact holesCol_le b c
  · simp [BOARD_W, BOARD_H]

/-- A column height never exceeds `BOARD_H`. -/
theorem columnHeight_le (b : Board) (c : Nat) : columnHeight b c ≤ BOARD_H := by
  rw [columnHeight]
  rcases topmostRow b c with _ | r
  · simp
  · simp only []
    omega

/-- The aggregate height is at most `BOARD_W * BOARD_H`. -/
theorem aggregateHeight_le (b : Board) : aggregateHeight b ≤ BOARD_W * BOARD_H := by
  rw [aggregateHeight]
  refine le_trans (List.sum_le_card_nsmul _ BOARD_H ?_) ?_
  · intro x hx
    simp only [List.mem_map] at hx
    obtain ⟨c, _, rfl⟩ := hx
    exact columnHeight_le b c
  · simp [BOARD_W, BOARD_H]

/-- The bumpiness is at most `(BOARD_W - 1) * BOARD_H`. -/
theorem bumpiness_le (b : Board) : bumpiness b ≤ (BOARD_W - 1) * BOARD_H := by
  rw [bumpiness]
  refine le_trans (List.sum_le_card_nsmul _ BOARD_H ?_) ?_
  · intro x hx
    simp only [List.mem_map] at hx
    obtain ⟨c, _, rfl⟩ := hx
    have h1 := columnHeight_le b c
    have h2 := columnHeight_le b (c + 1)
    simp only [BOARD_H] at h1 h2 ⊢
    omega
  · simp [BOARD_W, BOARD_H]

/-- Every placeable candidate's heuristic score is bounded below by -1000:
the penalty terms are bounded by the board's fixed dimensions, so the score
can never approach the -1e9 sentinel or the -1e8 game-over threshold. -/
theorem evalCandidate_score_lb (b : Board) (states : List Matrix4) (cid : Nat)
    (c : Nat × Int) (s : Rat) (ln : Nat)
    (h : evalCandidate b states cid c = some (s, ln)) : -(1000 : Rat) ≤ s := by
  rw [evalCandidate] at h
  rcases hdp : dropPosition b (states.getD c.1 (Matrix.of fun _ _ => 0)) c.2 with _ | top
  · rw [hdp] at h
    exact absurd h (by simp)
  · rw [hdp] at h
    simp only [Option.some.injEq, Prod.mk.injEq] at h
    obtain ⟨hs, hln⟩ := h
    set PB := clearLines (placePiece b
      (states.getD c.1 (Matrix.of fun _ _ => 0)) top c.2 cid) with hPB
    have hole200 : ((holes PB.1 : Nat) : Rat) ≤ 200 := by
      have := holes_le PB.1
      simp only [BOARD_W, BOARD_H] at this
      exact_mod_cast this
    have agg200 : ((aggregateHeight PB.1 : Nat) : Rat) ≤ 200 := by
      have := aggregateHeight_le PB.1
      simp only [BOARD_W, BOARD_H] at this
      exact_mod_cast this
    have bum180 : ((bumpiness PB.1 : Nat) : Rat) ≤ 180 := by
      have := bumpiness_le PB.1
      simp only [BOARD_W, BOARD_H] at this
      exact_mod_cast this
    have hW1 : (0 : Rat) ≤ W_LINES * ((PB.2 : Nat) : Rat) := by
      apply mul_nonneg
      · rw [W_LINES]
        norm_num [Rat.mkRat_eq_divInt, Rat.divInt_eq_div]
      · positivity
    have hWH : (W_HOLE : Rat) ≤ 0 := by
      rw [W_HOLE]
      norm_num [Rat.mkRat_eq_divInt, Rat.divInt_eq_div]
    have hWA : (W_HEIGHT : Rat) ≤ 0 := by
      rw [W_HEIGHT]
      norm_num [Rat.mkRat_eq_divInt, Rat.divInt_eq_div]
    have hWB : (W_BUMPY : Rat) ≤ 0 := by
      rw [W_BUMPY]
      norm_num [Rat.mkRat_eq_divInt, Rat.divInt_eq_div]
    have h2 : W_HOLE * (200 : Rat) ≤ W_HOLE * ((holes PB.1 : Nat) : Rat) :=
      mul_le_mul_of_nonpos_left hole200 hWH
    have h3 : W_HEIGHT * (200 : Rat) ≤ W_HEIGHT * ((aggregateHeight PB.1 : Nat) : Rat) :=
      mul_le_mul_of_nonpos_left agg200 hWA
    have h4 : W_BUMPY * (180 : Rat) ≤ W_BUMPY * ((bumpiness PB.1 : Nat) : Rat) :=
      mul_le_mul_of_nonpos_left bum180 hWB
    have hnum : -(1000 : Rat) ≤ W_HOLE * 200 + W_HEIGHT * 200 + W_BUMPY * 180 := by
      rw [W_HOLE, W_HEIGHT, W_BUMPY]
      norm_num [Rat.mkRat_eq_divInt, Rat.divInt_eq_div]
    linarith [hW1, h2, h3, h4, hnum, hs.ge, hs.le]

/-- Characterization of the strict-greater fold of `findBestMove`: either no
candidate beats the accumulator (which is then returned unchanged), or the
result is the first candidate attaining the maximum score — candidates
before it score strictly less, candidates after it score no more. -/
theorem foldBest_char (eval : Nat × Int → Option (Rat × Nat)) :
    ∀ (l : List (Nat × Int)) (acc : MoveDecision),
      (l.foldl (stepBest eval) acc = acc ∧
        ∀ c ∈ l, ∀ s ln, eval c = some (s, ln) → s ≤ acc.score) ∨
      (∃ l1 c l2 s ln, l = l1 ++ c :: l2 ∧ eval c = some (s, ln) ∧
        l.foldl (stepBest eval) acc = ⟨c.1, c.2, s, ln⟩ ∧ acc.score < s ∧
        (∀ c2 ∈ l1, ∀ s2 ln2, eval c2 = some (s2, ln2) → s2 < s) ∧
        (∀ c2 ∈ l2, ∀ s2 ln2, eval c2 = some (s2, ln2) → s2 ≤ s)) := by
  intro l
  induction l with
  | nil =>
    intro acc
    exact Or.inl ⟨rfl, by simp⟩
  | cons c0 rest ih =>
    intro acc
    rw [List.foldl_cons]
    rcases h0 : eval c0 with _ | ⟨s0, ln0⟩
    · have hstep : stepBest eval acc c0 = acc := by rw [stepBest, h0]
      rw [hstep]
      rcases ih acc with ⟨he, hb⟩ | ⟨l1, c, l2, s, ln, hsp, hev, hfold, hgt, hl1, hl2⟩
      · left
        refine ⟨he, ?_⟩
        intro c hc s ln hev
        rcases List.mem_cons.mp hc with rfl | hc2
        · rw [h0] at hev
          exact absurd hev (by simp)
        · exact hb c hc2 s ln hev
      · right
        refine ⟨c0 :: l1, c, l2, s, ln, by rw [List.cons_append, hsp], hev, hfold, hgt, ?_, hl2⟩
        intro c2 hc2 s2 ln2 hev2
        rcases List.mem_cons.mp hc2 with rfl | hc3
        · rw [h0] at hev2
          exact absurd hev2 (by simp)
        · exact hl1 c2 hc3 s2 ln2 hev2
    · by_cases hlt : acc.score < s0
      · have hstep : stepBest eval acc c0 = ⟨c0.1, c0.2, s0, ln0⟩ := by
          rw [stepBest, h0]
          simp [hlt]
        rw [hstep]
        rcases ih ⟨c0.1, c0.2, s0, ln0⟩ with ⟨he, hb⟩ |
          ⟨l1, c, l2, s, ln, hsp, hev, hfold, hgt, hl1, hl2⟩
        · right
          refine ⟨[], c0, rest, s0, ln0, by simp, h0, ?_, hlt, by simp, ?_⟩
          · rw [he]
          · intro c2 hc2 s2 ln2 hev2
            exact hb c2 hc2 s2 ln2 hev2
        · right
          have hs0s : s0 < s := hgt
          refine ⟨c0 :: l1, c, l2, s, ln, by rw [List.cons_append, hsp], hev, hfold,
            lt_trans hlt hs0s, ?_, hl2⟩
          intro c2 hc2 s2 ln2 hev2
          rcases List.mem_cons.mp hc2 with rfl | hc3
          · rw [h0] at hev2
            simp only [Option.some.injEq, Prod.mk.injEq] at hev2
            obtain ⟨h', _⟩ := hev2
            rw [← h']
            exact hs0s
          · exact hl1 c2 hc3 s2 ln2 hev2
      · have hstep : stepBest eval acc c0 = acc := by
          rw [stepBest, h0]
          simp [hlt]
        rw [hstep]
        rcases ih acc with ⟨he, hb⟩ | ⟨l1, c, l2, s, ln, hsp, hev, hfold, hgt, hl1, hl2⟩
        · left
          refine ⟨he, ?_⟩
          intro c hc s ln hev
          rcases List.mem_cons.mp hc with rfl | hc2
          · rw [h0] at hev
            simp only [Option.some.injEq, Prod.mk.injEq] at hev
            obtain ⟨h', _⟩ := hev
            rw [← h']
            exact not_lt.mp hlt
          · exact hb c hc2 s ln hev
        · right
          refine ⟨c0 :: l1, c, l2, s, ln, by rw [List.cons_append, hsp], hev, hfold, hgt, ?_, hl2⟩
          intro c2 hc2 s2 ln2 hev2
          rcases List.mem_cons.mp hc2 with rfl | hc3
          · rw [h0] at hev2
            simp only [Option.some.injEq, Prod.mk.injEq] at hev2
            obtain ⟨h', _⟩ := hev2
            rw [← h']
            exact lt_of_le_of_lt (not_lt.mp hlt) hgt
          · exact hl1 c2 hc3 s2 ln2 hev2

/-- `findBestMove` is exactly the strict-greater fold over the rotation-major,
offset-ascending candidate list, started at the sentinel `{0, 0, -1e9, 0}`. -/
theorem findBestMove_eq_fold (b : Board) (t : Nat) :
    findBestMove b t =
      (candsFor t).foldl (stepBest (evalFor b t)) ⟨0, 0, -(10 ^ 9 : Rat), 0⟩ := rfl

/-- C1: `findBestMove` examines every rotation state of the piece and every
horizontal offset from -4 to 10 inclusive (the list `candsFor`), scores each
placeable candidate with the linear heuristic on the cloned post-placement,
post-clear board (`evalFor`), and returns the maximum-scoring candidate,
ties resolving to the first candidate in rotation-major, offset-ascending
order (strict greater-than updates only: earlier candidates score strictly
below the winner, later ones no more than it); if no candidate is
placeable, the returned decision keeps the sentinel score -1e9, which falls
below the -1e8 game-over threshold, while any placeable candidate's score
lies above that threshold. -/
theorem findBestMove_spec (b : Board) (pieceType : Nat) :
    ((∀ c ∈ candsFor pieceType, evalFor b pieceType c = none) →
      findBestMove b pieceType = ⟨0, 0, -(10 ^ 9 : Rat), 0⟩ ∧
        (findBestMove b pieceType).score < -(10 ^ 8 : Rat)) ∧
    (∀ c0 ∈ candsFor pieceType, ∀ s0 ln0, evalFor b pieceType c0 = some (s0, ln0) →
      ∃ l1 c l2 s ln, candsFor pieceType = l1 ++ c :: l2 ∧
        evalFor b pieceType c = some (s, ln) ∧
        findBestMove b pieceType = ⟨c.1, c.2, s, ln⟩ ∧
        -(10 ^ 8 : Rat) < s ∧
        (∀ c2 ∈ l1, ∀ s2 ln2, evalFor b pieceType c2 = some (s2, ln2) → s2 < s) ∧
        (∀ c2 ∈ l2, ∀ s2 ln2, evalFor b pieceType c2 = some (s2, ln2) → s2 ≤ s)) := by
  constructor
  · intro hall
    rcases foldBest_char (evalFor b pieceType) (candsFor pieceType)
        ⟨0, 0, -(10 ^ 9 : Rat), 0⟩ with ⟨he, _⟩ |
      ⟨l1, c, l2, s, ln, hsp, hev, _, _, _, _⟩
    · rw [findBestMove_eq_fold, he]
      refine ⟨rfl, by norm_num⟩
    · exfalso
      have hc : c ∈ candsFor pieceType := by
        rw [hsp]
        simp
      rw [hall c hc] at hev
      exact absurd hev (by simp)
  · intro c0 hc0 s0 ln0 hev0
    rcases foldBest_char (evalFor b pieceType) (candsFor pieceType)
        ⟨0, 0, -(10 ^ 9 : Rat), 0⟩ with ⟨_, hb⟩ |
      ⟨l1, c, l2, s, ln, hsp, hev, hfold, hgt, hl1, hl2⟩
    · exfalso
      have hle : s0 ≤ -(10 ^ 9 : Rat) := hb c0 hc0 s0 ln0 hev0
      have hlb : -(1000 : Rat) ≤ s0 :=
        evalCandidate_score_lb b (pieceOf pieceType).states (pieceOf pieceType).colorId
          c0 s0 ln0 hev0
      linarith
    · have hgt9 : -(10 ^ 9 : Rat) < s := hgt
      have hlb : -(1000 : Rat) ≤ s :=
        evalCandidate_score_lb b (pieceOf pieceType).states (pieceOf pieceType).colorId
          c s ln hev
      refine ⟨l1, c, l2, s, ln, hsp, hev, ?_, by linarith, hl1, hl2⟩
      rw [findBestMove_eq_fold]
      exact hfold

/-- Witness for C1: on the empty board with the I piece, candidate
(rotation 0, offset 0) is placeable with score -2.224747, so `findBestMove`
returns the first maximum-scoring candidate of the scan. -/
theorem findBestMove_spec_witness :
    ∃ l1 c l2 s ln, candsFor 0 = l1 ++ c :: l2 ∧
      evalFor emptyBoard 0 c = some (s, ln) ∧
      findBestMove emptyBoard 0 = ⟨c.1, c.2, s, ln⟩ ∧
      -(10 ^ 8 : Rat) < s ∧
      (∀ c2 ∈ l1, ∀ s2 ln2, evalFor emptyBoard 0 c2 = some (s2, ln2) → s2 < s) ∧
      (∀ c2 ∈ l2, ∀ s2 ln2, evalFor emptyBoard 0 c2 = some (s2, ln2) → s2 ≤ s) :=
  (findBestMove_spec emptyBoard 0).2 (0, 0) (by decide)
    (mkRat (-2224747) 1000000) 0 (by decide!)
